import Mathlib

/-!
Verification of the keyword/category matching pipeline of the
Vehicle-Diagnostic-Analysis repository.

The embedding below translates the JavaScript source into Lean:

* `advancedKeywordSearch` embeds the function of the same name in
  `src/backend/server.js` (lines 55-92 of the first revision), together with
  the module-level `vehicleKeywords` array (lines 30-53).
* JavaScript string primitives (`toLowerCase`, `includes`, `trim`,
  word-boundary regex matching, `[...new Set(xs)]`) are modelled on
  `List Char` / `List String`.
* `parseGeminiResponse` embeds the AI-response parser (lines 94-111),
  with `JSON.parse` modelled by an executable JSON-grammar parser.
* `processTranscriptStage` embeds the transcript-validation and
  keyword-search stage of the `/process-recording` handler found in
  `src/unnamed/part_001` (lines 211-224).

Strings are handled byte-for-byte; all definitions are executable.
-/

/-- Model of JavaScript `String.prototype.toLowerCase` on a single ASCII
character (the keyword list and the tested transcripts are ASCII). -/
def jsLowerChar (c : Char) : Char :=
  if 'A' ≤ c && c ≤ 'Z' then Char.ofNat (c.toNat + 32) else c

/-- Model of JavaScript `text.toLowerCase()`. -/
def jsToLower (s : List Char) : List Char := s.map jsLowerChar

/-- `occursAt kw text i` holds when `kw` occurs in `text` starting at
index `i`. -/
def occursAt (kw text : List Char) (i : Nat) : Bool :=
  (text.drop i).take kw.length == kw

/-- Model of JavaScript `text.includes(kw)`: `kw` occurs somewhere in
`text`. -/
def substrContains (text kw : List Char) : Bool :=
  (List.range (text.length + 1)).any (fun i => occursAt kw text i)

/-- Word characters for the JavaScript regex `\b` word-boundary class
(`[A-Za-z0-9_]`). -/
def isWordChar (c : Char) : Bool :=
  ('a' ≤ c && c ≤ 'z') || ('A' ≤ c && c ≤ 'Z') || ('0' ≤ c && c ≤ '9') || c == '_'

/-- Whether position `i` of `text` holds a word character (out of range
counts as non-word, as at the ends of a JavaScript string). -/
def isWordAt (text : List Char) (i : Nat) : Bool :=
  isWordChar (text.getD i ' ')

/-- Whether the character just before position `i` is a word character. -/
def prevIsWord (text : List Char) (i : Nat) : Bool :=
  match i with
  | 0 => false
  | j + 1 => isWordAt text j

/-- The regex `\b` word boundary at position `i` of `text`. -/
def boundaryAt (text : List Char) (i : Nat) : Bool :=
  prevIsWord text i != isWordAt text i

/-- Model of testing `text` against `new RegExp("\\b" + kw + "\\b", "gi")`
from the source: some occurrence of `kw` is delimited by word boundaries.
The keyword phrases of the source contain no regex metacharacters, so the
regex built there matches `kw` literally. Case-insensitivity is immaterial
because the source applies the regex to the lower-cased transcript with a
lower-cased keyword. -/
def regexWordMatch (kw text : List Char) : Bool :=
  (List.range (text.length + 1)).any
    (fun i => occursAt kw text i && boundaryAt text i && boundaryAt text (i + kw.length))

/-- The static keyword table `vehicleKeywords` of `src/backend/server.js`
(lines 30-53), in source order. -/
def vehicleKeywords : List String :=
  ["brake pedal", "brake pads", "brake discs", "brake fluid", "brake lines",
   "brake noise", "brake vibration", "brake failure", "brake warning",
   "engine overheating", "engine noise", "engine failure", "engine stalling",
   "engine misfire", "engine vibration", "engine smoking", "engine knocking",
   "motor starter", "motor mount",
   "battery dead", "battery drain", "alternator failure", "starter motor",
   "electrical short", "fuse blown", "wiring issue", "light failure",
   "flat tire", "tire pressure", "tire wear", "wheel alignment", "wheel bearing",
   "rim damage", "tire vibration",
   "suspension noise", "suspension failure", "shock absorbers", "strut failure",
   "spring broken", "control arm", "ball joint", "bushing worn",
   "steering wheel", "power steering", "steering vibration", "alignment issue",
   "car pulling", "uneven ride", "body roll",
   "transmission slipping", "gear shifting", "clutch problem", "transmission fluid",
   "gear noise", "shifting difficulty",
   "coolant leak", "overheating issue", "radiator problem", "thermostat failure",
   "water pump", "cooling fan",
   "exhaust leak", "muffler problem", "catalytic converter", "exhaust noise",
   "fuel pump", "fuel injector", "fuel filter", "fuel leak",
   "side mirror", "windshield crack", "door lock", "window regulator",
   "seat belt", "air conditioning", "heater problem",
   "oil leak", "power loss", "check engine", "warning light", "emission problem",
   "suspension problem", "suspension issue"]

/-- The match test applied to one keyword in the source loop:
word-boundary regex match OR raw substring containment, both on the
lower-cased transcript and lower-cased keyword. -/
def keywordMatches (lowerText : List Char) (keyword : String) : Bool :=
  let lowerKeyword := jsToLower keyword.data
  regexWordMatch lowerKeyword lowerText || substrContains lowerText lowerKeyword

/-- Model of `keywordCategories[tag] = true` on a JavaScript object:
string keys keep insertion order and re-assignment does not move a key. -/
def insertTag (cats : List String) (tag : String) : List String :=
  if cats.contains tag then cats else cats ++ [tag]

/-- The `brake` category test of the source: `lowerKeyword.includes("brake")`. -/
def trigBrake (kw : List Char) : Bool := substrContains kw ("brake".data)

/-- The `tire` category test: `includes("tire") || includes("wheel")`. -/
def trigTire (kw : List Char) : Bool :=
  substrContains kw ("tire".data) || substrContains kw ("wheel".data)

/-- The `engine` category test: `includes("engine") || includes("motor")`. -/
def trigEngine (kw : List Char) : Bool :=
  substrContains kw ("engine".data) || substrContains kw ("motor".data)

/-- The `electrical` category test:
`includes("electrical") || includes("battery") || includes("light")`. -/
def trigElectrical (kw : List Char) : Bool :=
  substrContains kw ("electrical".data) || substrContains kw ("battery".data) ||
    substrContains kw ("light".data)

/-- The `transmission` category test:
`includes("transmission") || includes("gear") || includes("clutch")`. -/
def trigTransmission (kw : List Char) : Bool :=
  substrContains kw ("transmission".data) || substrContains kw ("gear".data) ||
    substrContains kw ("clutch".data)

/-- One category-insertion `if` block: insert `tag` when the test fired. -/
def condInsert (b : Bool) (cats : List String) (tag : String) : List String :=
  if b then insertTag cats tag else cats

/-- The five category-insertion `if` blocks executed for a matched keyword,
in source order. -/
def addCats (cats : List String) (kw : List Char) : List String :=
  condInsert (trigTransmission kw)
    (condInsert (trigElectrical kw)
      (condInsert (trigEngine kw)
        (condInsert (trigTire kw)
          (condInsert (trigBrake kw) cats "brake") "tire") "engine") "electrical")
    "transmission"

/-- One iteration of the `vehicleKeywords.forEach` loop in
`advancedKeywordSearch`: the accumulator pairs the pushed `foundKeywords`
with the `keywordCategories` key list. -/
def scanStep (lowerText : List Char) (acc : List String × List String)
    (keyword : String) : List String × List String :=
  if keywordMatches lowerText keyword then
    (acc.1 ++ [keyword], addCats acc.2 (jsToLower keyword.data))
  else acc

/-- Worker for `jsSetDedup`: `seen` holds the elements already emitted. -/
def jsSetDedupGo : List String → List String → List String
  | _, [] => []
  | seen, x :: xs =>
    if seen.contains x then jsSetDedupGo seen xs
    else x :: jsSetDedupGo (x :: seen) xs

/-- Model of `[...new Set(xs)]`: keep the first occurrence of each element,
in order. -/
def jsSetDedup (l : List String) : List String := jsSetDedupGo [] l

/-- The record returned by `advancedKeywordSearch`. -/
structure MatchResult where
  foundKeywords : List String
  categories : List String
  totalMatches : Nat
deriving Repr, DecidableEq

/-- The body of `advancedKeywordSearch` after `text.toLowerCase()`:
the `forEach` loop over `vehicleKeywords`, the `Set` de-duplication,
`Object.keys`, and the pre-de-duplication `foundKeywords.length`. -/
def advancedKeywordSearchCore (lowerText : List Char) : MatchResult :=
  let scanned := vehicleKeywords.foldl (scanStep lowerText) ([], [])
  { foundKeywords := jsSetDedup scanned.1
    categories := scanned.2
    totalMatches := scanned.1.length }

/-- Embedding of `advancedKeywordSearch` from `src/backend/server.js`
(lines 55-92). -/
def advancedKeywordSearch (text : String) : MatchResult :=
  advancedKeywordSearchCore (jsToLower text.data)

/-- `advancedKeywordSearch` at the JavaScript dynamic-typing level: the
argument is the transcription text, which may be `null`/`undefined`
(modelled as `none`). On a non-string the very first statement
`text.toLowerCase()` throws a `TypeError`; on a string the function
returns normally. -/
def advancedKeywordSearchJS : Option String → Except String MatchResult
  | some text => .ok (advancedKeywordSearch text)
  | none => .error "TypeError: text.toLowerCase is not a function"

example : advancedKeywordSearch "" = { foundKeywords := [], categories := [], totalMatches := 0 } := by
  rfl

example : advancedKeywordSearch "suspension noise" =
    { foundKeywords := ["suspension noise"], categories := [], totalMatches := 1 } := by
  rfl

/-- The single-strategy match test described by the specification (§4.1,
§9): raw substring containment alone, with the word-boundary regex clause
dropped. -/
def keywordMatchesSub (lowerText : List Char) (keyword : String) : Bool :=
  substrContains lowerText (jsToLower keyword.data)

/-- The loop iteration of the substring-only matcher variant. -/
def scanStepSub (lowerText : List Char) (acc : List String × List String)
    (keyword : String) : List String × List String :=
  if keywordMatchesSub lowerText keyword then
    (acc.1 ++ [keyword], addCats acc.2 (jsToLower keyword.data))
  else acc

/-- The matcher with the dual test collapsed to a single
substring-containment check, as the specification proposes. -/
def substringOnlySearchCore (lowerText : List Char) : MatchResult :=
  let scanned := vehicleKeywords.foldl (scanStepSub lowerText) ([], [])
  { foundKeywords := jsSetDedup scanned.1
    categories := scanned.2
    totalMatches := scanned.1.length }

/-- The substring-only matcher variant on a transcript. -/
def substringOnlySearch (text : String) : MatchResult :=
  substringOnlySearchCore (jsToLower text.data)

/-- A word-boundary-delimited occurrence is in particular an occurrence:
the regex clause implies the substring clause. -/
theorem regexWordMatch_imp_substrContains (kw text : List Char)
    (h : regexWordMatch kw text = true) : substrContains text kw = true := by
  unfold regexWordMatch at h
  rcases List.any_eq_true.mp h with ⟨i, hi, hcond⟩
  simp only [Bool.and_eq_true] at hcond
  exact List.any_eq_true.mpr ⟨i, hi, hcond.1.1⟩

/-- The dual acceptance test of the source equals plain substring
containment, keyword by keyword. -/
theorem keywordMatches_eq_sub (lowerText : List Char) (keyword : String) :
    keywordMatches lowerText keyword = keywordMatchesSub lowerText keyword := by
  unfold keywordMatches keywordMatchesSub
  cases hs : substrContains lowerText (jsToLower keyword.data) with
  | true => simp [hs]
  | false =>
    simp only [hs, Bool.or_false]
    cases hr : regexWordMatch (jsToLower keyword.data) lowerText with
    | false => rfl
    | true => rw [regexWordMatch_imp_substrContains _ _ hr] at hs; exact hs

/-- The loop iterations of the two matcher variants coincide. -/
theorem scanStep_eq_sub (lowerText : List Char) :
    scanStep lowerText = scanStepSub lowerText := by
  funext acc keyword
  unfold scanStep scanStepSub
  rw [keywordMatches_eq_sub]

/-- The `foundKeywords` accumulator of the loop collects exactly the
keywords of the table that pass the match test, in table order. -/
theorem foldl_scanStep_found (lowerText : List Char) :
    ∀ (ks : List String) (acc : List String × List String),
      (ks.foldl (scanStep lowerText) acc).1 = acc.1 ++ ks.filter (keywordMatches lowerText) := by
  intro ks
  induction ks with
  | nil => intro acc; simp
  | cons k ks ih =>
    intro acc
    rw [List.foldl_cons, ih]
    by_cases h : keywordMatches lowerText k = true
    · simp [scanStep, h]
    · rw [Bool.not_eq_true] at h
      simp [scanStep, h]

/-- `jsSetDedupGo` leaves a list untouched when no element is in `seen`
and the list has no duplicates. -/
theorem jsSetDedupGo_eq_self :
    ∀ (l seen : List String), l.Nodup → (∀ x ∈ l, seen.contains x = false) →
      jsSetDedupGo seen l = l := by
  intro l
  induction l with
  | nil => intro seen _ _; rfl
  | cons x xs ih =>
    intro seen hnd hseen
    have hrest : ∀ y ∈ xs, (x :: seen).contains y = false := by
      intro y hy
      have hyx : y ≠ x := fun he => (List.nodup_cons.mp hnd).1 (he ▸ hy)
      simp only [List.contains_cons]
      rw [hseen y (List.mem_cons_of_mem _ hy)]
      simp [hyx]
    unfold jsSetDedupGo
    rw [hseen x (List.mem_cons_self x xs), ih (x :: seen) hnd.of_cons hrest]
    simp

/-- De-duplicating a duplicate-free list is the identity. -/
theorem jsSetDedup_eq_self (l : List String) (h : l.Nodup) : jsSetDedup l = l :=
  jsSetDedupGo_eq_self l [] h (fun _ _ => rfl)

/-- The static keyword table has no duplicate entries. -/
theorem vehicleKeywords_nodup : vehicleKeywords.Nodup := by decide

/-- The pre-de-duplication `foundKeywords` list is duplicate-free, so
`[...new Set(foundKeywords)]` returns it unchanged: the matcher output is
the filtered keyword table itself. -/
theorem advancedKeywordSearch_foundKeywords (text : String) :
    (advancedKeywordSearch text).foundKeywords =
      vehicleKeywords.filter (keywordMatches (jsToLower text.data)) := by
  unfold advancedKeywordSearch advancedKeywordSearchCore
  simp only
  rw [foldl_scanStep_found, List.nil_append]
  exact jsSetDedup_eq_self _ (vehicleKeywords_nodup.filter _)

/-- The pre-de-duplication count equals the filtered-table length. -/
theorem advancedKeywordSearch_totalMatches (text : String) :
    (advancedKeywordSearch text).totalMatches =
      (vehicleKeywords.filter (keywordMatches (jsToLower text.data))).length := by
  unfold advancedKeywordSearch advancedKeywordSearchCore
  simp only
  rw [foldl_scanStep_found, List.nil_append]

/-- `contains = false` on strings means non-membership. -/
theorem not_mem_of_contains_eq_false {cats : List String} {tag : String}
    (h : cats.contains tag = false) : tag ∉ cats := by
  simp only [List.contains, List.elem_eq_mem, decide_eq_false_iff_not] at h
  exact h

/-- Inserting a tag makes it a member. -/
theorem mem_insertTag_self (cats : List String) (tag : String) : tag ∈ insertTag cats tag := by
  unfold insertTag
  cases h : cats.contains tag with
  | true =>
    simp only [if_true]
    have := h
    simp only [List.contains, List.elem_eq_mem, decide_eq_true_eq] at this
    exact this
  | false => simp

/-- Insertion preserves existing members. -/
theorem mem_insertTag_of_mem {a : String} {cats : List String} (tag : String)
    (h : a ∈ cats) : a ∈ insertTag cats tag := by
  unfold insertTag
  cases cats.contains tag with
  | true => exact h
  | false => exact List.mem_append_left _ h

/-- A member of the inserted list was already present or is the new tag. -/
theorem mem_insertTag_inv {a : String} {cats : List String} {tag : String}
    (h : a ∈ insertTag cats tag) : a ∈ cats ∨ a = tag := by
  unfold insertTag at h
  cases hc : cats.contains tag with
  | true => rw [hc] at h; exact Or.inl (by simpa using h)
  | false =>
    rw [hc] at h
    simpa using h

/-- Insertion only appends at the end. -/
theorem insertTag_eq_append (cats : List String) (tag : String) :
    ∃ e, insertTag cats tag = cats ++ e := by
  unfold insertTag
  cases cats.contains tag with
  | true => exact ⟨[], by simp⟩
  | false => exact ⟨[tag], rfl⟩

/-- Insertion keeps the list duplicate-free. -/
theorem insertTag_nodup {cats : List String} (h : cats.Nodup) (tag : String) :
    (insertTag cats tag).Nodup := by
  unfold insertTag
  cases hc : cats.contains tag with
  | true => exact h
  | false =>
    show (cats ++ [tag]).Nodup
    simp only [List.nodup_append, List.nodup_singleton]
    exact ⟨h, trivial, by
      intro a ha hb
      rw [List.mem_singleton.mp hb] at ha
      exact not_mem_of_contains_eq_false hc ha⟩

/-- A fired conditional insertion makes the tag a member. -/
theorem mem_condInsert_self {b : Bool} (cats : List String) (tag : String)
    (hb : b = true) : tag ∈ condInsert b cats tag := by
  unfold condInsert
  rw [hb]
  simpa using mem_insertTag_self cats tag

/-- Conditional insertion preserves existing members. -/
theorem mem_condInsert_of_mem {a : String} (b : Bool) {cats : List String} (tag : String)
    (h : a ∈ cats) : a ∈ condInsert b cats tag := by
  unfold condInsert
  cases b with
  | true => simpa using mem_insertTag_of_mem tag h
  | false => exact h

/-- A member after conditional insertion was present before, or is the tag
of an insertion whose test fired. -/
theorem mem_condInsert_inv {a : String} {b : Bool} {cats : List String} {tag : String}
    (h : a ∈ condInsert b cats tag) : a ∈ cats ∨ (a = tag ∧ b = true) := by
  unfold condInsert at h
  cases b with
  | true =>
    simp only [if_true] at h
    rcases mem_insertTag_inv h with h | h
    · exact Or.inl h
    · exact Or.inr ⟨h, rfl⟩
  | false => exact Or.inl h

/-- Conditional insertion only appends at the end. -/
theorem condInsert_eq_append (b : Bool) (cats : List String) (tag : String) :
    ∃ e, condInsert b cats tag = cats ++ e := by
  unfold condInsert
  cases b with
  | true => simpa using insertTag_eq_append cats tag
  | false => exact ⟨[], by simp⟩

/-- Conditional insertion keeps the list duplicate-free. -/
theorem condInsert_nodup {cats : List String} (h : cats.Nodup) (b : Bool) (tag : String) :
    (condInsert b cats tag).Nodup := by
  unfold condInsert
  cases b with
  | true => simpa using insertTag_nodup h tag
  | false => exact h

/-- The category blocks preserve existing members. -/
theorem mem_addCats_of_mem {a : String} {cats : List String} (kw : List Char)
    (h : a ∈ cats) : a ∈ addCats cats kw := by
  unfold addCats
  exact mem_condInsert_of_mem _ _ (mem_condInsert_of_mem _ _
    (mem_condInsert_of_mem _ _ (mem_condInsert_of_mem _ _ (mem_condInsert_of_mem _ _ h))))

/-- The category blocks only append at the end. -/
theorem addCats_eq_append (cats : List String) (kw : List Char) :
    ∃ e, addCats cats kw = cats ++ e := by
  unfold addCats
  rcases condInsert_eq_append (trigBrake kw) cats "brake" with ⟨e1, h1⟩
  rw [h1]
  rcases condInsert_eq_append (trigTire kw) (cats ++ e1) "tire" with ⟨e2, h2⟩
  rw [h2]
  rcases condInsert_eq_append (trigEngine kw) (cats ++ e1 ++ e2) "engine" with ⟨e3, h3⟩
  rw [h3]
  rcases condInsert_eq_append (trigElectrical kw) (cats ++ e1 ++ e2 ++ e3) "electrical"
    with ⟨e4, h4⟩
  rw [h4]
  rcases condInsert_eq_append (trigTransmission kw) (cats ++ e1 ++ e2 ++ e3 ++ e4)
    "transmission" with ⟨e5, h5⟩
  rw [h5]
  exact ⟨e1 ++ e2 ++ e3 ++ e4 ++ e5, by simp [List.append_assoc]⟩

/-- The category blocks keep the list duplicate-free. -/
theorem addCats_nodup {cats : List String} (h : cats.Nodup) (kw : List Char) :
    (addCats cats kw).Nodup := by
  unfold addCats
  exact condInsert_nodup (condInsert_nodup (condInsert_nodup (condInsert_nodup
    (condInsert_nodup h _ _) _ _) _ _) _ _) _ _

/-- A member after the category blocks was present before or is one of the
five category tags of the source. -/
theorem mem_addCats_inv {a : String} {cats : List String} {kw : List Char}
    (h : a ∈ addCats cats kw) :
    a ∈ cats ∨ a ∈ ["brake", "tire", "engine", "electrical", "transmission"] := by
  unfold addCats at h
  rcases mem_condInsert_inv h with h | ⟨he, _⟩
  · rcases mem_condInsert_inv h with h | ⟨he, _⟩
    · rcases mem_condInsert_inv h with h | ⟨he, _⟩
      · rcases mem_condInsert_inv h with h | ⟨he, _⟩
        · rcases mem_condInsert_inv h with h | ⟨he, _⟩
          · exact Or.inl h
          · exact Or.inr (by rw [he]; decide)
        · exact Or.inr (by rw [he]; decide)
      · exact Or.inr (by rw [he]; decide)
    · exact Or.inr (by rw [he]; decide)
  · exact Or.inr (by rw [he]; decide)

/-- A fired `brake` test puts `brake` in the categories. -/
theorem brake_mem_addCats (cats : List String) {kw : List Char}
    (h : trigBrake kw = true) : "brake" ∈ addCats cats kw := by
  unfold addCats
  exact mem_condInsert_of_mem _ _ (mem_condInsert_of_mem _ _ (mem_condInsert_of_mem _ _
    (mem_condInsert_of_mem _ _ (mem_condInsert_self cats "brake" h))))

/-- A fired `tire` test puts `tire` in the categories. -/
theorem tire_mem_addCats (cats : List String) {kw : List Char}
    (h : trigTire kw = true) : "tire" ∈ addCats cats kw := by
  unfold addCats
  exact mem_condInsert_of_mem _ _ (mem_condInsert_of_mem _ _ (mem_condInsert_of_mem _ _
    (mem_condInsert_self _ "tire" h)))

/-- A fired `engine` test puts `engine` in the categories. -/
theorem engine_mem_addCats (cats : List String) {kw : List Char}
    (h : trigEngine kw = true) : "engine" ∈ addCats cats kw := by
  unfold addCats
  exact mem_condInsert_of_mem _ _ (mem_condInsert_of_mem _ _
    (mem_condInsert_self _ "engine" h))

/-- `engine` appears after the category blocks only if it was already
present or the `engine` test fired. -/
theorem engine_mem_addCats_inv {cats : List String} {kw : List Char}
    (h : "engine" ∈ addCats cats kw) : "engine" ∈ cats ∨ trigEngine kw = true := by
  unfold addCats at h
  rcases mem_condInsert_inv h with h | ⟨he, _⟩
  · rcases mem_condInsert_inv h with h | ⟨he, _⟩
    · rcases mem_condInsert_inv h with h | ⟨_, ht⟩
      · rcases mem_condInsert_inv h with h | ⟨he, _⟩
        · rcases mem_condInsert_inv h with h | ⟨he, _⟩
          · exact Or.inl h
          · exact absurd he (by decide)
        · exact absurd he (by decide)
      · exact Or.inr ht
    · exact absurd he (by decide)
  · exact absurd he (by decide)

/-- A loop iteration only appends to the category list. -/
theorem scanStep_snd_append (lowerText : List Char) (acc : List String × List String)
    (k : String) : ∃ e, (scanStep lowerText acc k).2 = acc.2 ++ e := by
  unfold scanStep
  cases keywordMatches lowerText k with
  | true => simpa using addCats_eq_append acc.2 (jsToLower k.data)
  | false => exact ⟨[], by simp⟩

/-- The whole loop only appends to the category list. -/
theorem foldl_scanStep_cats_append (lowerText : List Char) :
    ∀ (ks : List String) (acc : List String × List String),
      ∃ e, (ks.foldl (scanStep lowerText) acc).2 = acc.2 ++ e := by
  intro ks
  induction ks with
  | nil => intro acc; exact ⟨[], by simp⟩
  | cons k ks ih =>
    intro acc
    rw [List.foldl_cons]
    rcases ih (scanStep lowerText acc k) with ⟨e1, he1⟩
    rcases scanStep_snd_append lowerText acc k with ⟨e0, he0⟩
    exact ⟨e0 ++ e1, by rw [he1, he0, List.append_assoc]⟩

/-- Categories already accumulated survive the rest of the loop. -/
theorem mem_foldl_scanStep_cats (lowerText : List Char) (ks : List String)
    (acc : List String × List String) {a : String} (h : a ∈ acc.2) :
    a ∈ (ks.foldl (scanStep lowerText) acc).2 := by
  rcases foldl_scanStep_cats_append lowerText ks acc with ⟨e, he⟩
  rw [he]
  exact List.mem_append_left _ h

/-- If some keyword of the remaining table matches and its category test
fires, the tag ends up in the accumulated categories. -/
theorem foldl_scanStep_cats_intro (lowerText : List Char) (tag : String) :
    ∀ (ks : List String) (acc : List String × List String) (k : String),
      k ∈ ks → keywordMatches lowerText k = true →
      (∀ cats, tag ∈ addCats cats (jsToLower k.data)) →
      tag ∈ (ks.foldl (scanStep lowerText) acc).2 := by
  intro ks
  induction ks with
  | nil => intro acc k hk; exact absurd hk (List.not_mem_nil k)
  | cons k0 ks ih =>
    intro acc k hk hm hins
    rw [List.foldl_cons]
    rcases List.mem_cons.mp hk with he | hk2
    · subst he
      apply mem_foldl_scanStep_cats
      simp only [scanStep, hm, if_true]
      exact hins acc.2
    · exact ih _ k hk2 hm hins

/-- `engine` can only enter the accumulated categories through a matched
keyword whose `engine` test fires. -/
theorem foldl_scanStep_engine_inv (lowerText : List Char) :
    ∀ (ks : List String) (acc : List String × List String),
      "engine" ∈ (ks.foldl (scanStep lowerText) acc).2 →
      "engine" ∈ acc.2 ∨ ∃ k ∈ ks, trigEngine (jsToLower k.data) = true := by
  intro ks
  induction ks with
  | nil => intro acc h; exact Or.inl h
  | cons k0 ks ih =>
    intro acc h
    rw [List.foldl_cons] at h
    rcases ih (scanStep lowerText acc k0) h with h2 | ⟨k, hk, ht⟩
    · unfold scanStep at h2
      cases hm : keywordMatches lowerText k0 with
      | true =>
        rw [hm] at h2
        simp only [if_true] at h2
        rcases engine_mem_addCats_inv (by simpa using h2) with h3 | ht
        · exact Or.inl h3
        · exact Or.inr ⟨k0, List.mem_cons_self k0 ks, ht⟩
      | false =>
        rw [hm] at h2
        exact Or.inl (by simpa using h2)
    · exact Or.inr ⟨k, List.mem_cons_of_mem _ hk, ht⟩

/-- Every accumulated category is one of the five tags of the source. -/
theorem foldl_scanStep_cats_subset (lowerText : List Char) :
    ∀ (ks : List String) (acc : List String × List String) (a : String),
      a ∈ (ks.foldl (scanStep lowerText) acc).2 →
      a ∈ acc.2 ∨ a ∈ ["brake", "tire", "engine", "electrical", "transmission"] := by
  intro ks
  induction ks with
  | nil => intro acc a h; exact Or.inl h
  | cons k0 ks ih =>
    intro acc a h
    rw [List.foldl_cons] at h
    rcases ih (scanStep lowerText acc k0) a h with h2 | h5
    · unfold scanStep at h2
      cases hm : keywordMatches lowerText k0 with
      | true =>
        rw [hm] at h2
        rcases mem_addCats_inv (by simpa using h2) with h3 | h5
        · exact Or.inl h3
        · exact Or.inr h5
      | false =>
        rw [hm] at h2
        exact Or.inl (by simpa using h2)
    · exact Or.inr h5

/-- The accumulated category list stays duplicate-free. -/
theorem foldl_scanStep_cats_nodup (lowerText : List Char) :
    ∀ (ks : List String) (acc : List String × List String),
      acc.2.Nodup → (ks.foldl (scanStep lowerText) acc).2.Nodup := by
  intro ks
  induction ks with
  | nil => intro acc h; exact h
  | cons k0 ks ih =>
    intro acc h
    rw [List.foldl_cons]
    apply ih
    unfold scanStep
    cases keywordMatches lowerText k0 with
    | true => simpa using addCats_nodup h (jsToLower k0.data)
    | false => exact h

/-- Whitespace characters for JavaScript `String.prototype.trim` and the
regex class `\s` (ASCII subset). -/
def jsWs (c : Char) : Bool :=
  c == ' ' || c == '\t' || c == '\n' || c == '\r' || c == '\x0b' || c == '\x0c'

/-- Model of JavaScript `s.trim()`. -/
def jsTrim (s : List Char) : List Char :=
  ((s.dropWhile jsWs).reverse.dropWhile jsWs).reverse

/-- Outcome of the transcript-processing stage of the
`/process-recording` handler: either the keyword-search result that goes
into the 200 response, or an HTTP error response. -/
inductive HandlerOutcome where
  | ok (keywordSearch : MatchResult) : HandlerOutcome
  | httpError (status : Nat) (message : String) : HandlerOutcome
deriving Repr, DecidableEq

/-- The error message thrown by the handler for an empty transcript. -/
def noSpeechMsg : String :=
  "No speech detected in the audio. Please ensure there is clear audio in the video."

/-- The transcript-validation and keyword-search stage of the
`/process-recording` handler in `src/unnamed/part_001` (lines 211-224),
entered after a successful transcription. `none` models a `null` or
`undefined` `transcription.text`. The handler throws
`"No speech detected..."` when `!transcription.text` or
`transcription.text.trim().length === 0`; the surrounding `catch` turns
the throw into a `res.status(500)` response. Otherwise the request
proceeds to `advancedKeywordSearch(transcription.text)`. -/
def processTranscriptStage (text : Option String) : HandlerOutcome :=
  match text with
  | none => .httpError 500 noSpeechMsg
  | some s =>
    if s.data.isEmpty || (jsTrim s.data).isEmpty then .httpError 500 noSpeechMsg
    else .ok (advancedKeywordSearch s)

/-- The record produced by the rule-based diagnostic classifier. -/
structure DiagnosticClassification where
  mainProblem : String
  problemType : String
  severity : String
  specificIssues : List String
  recommendation : String
deriving Repr, DecidableEq

/-- Capitalize the first character of a keyword, as in rendering
a specific-issue line. -/
def capitalizeFirst (s : String) : String :=
  match s.data with
  | [] => ""
  | c :: cs => String.mk (c.toUpper :: cs)

/-- Modelled from the spec: whether some matched keyword contains the
given escalation substring (the classifier is keyed on "which specific
keyword substrings are present", spec §4.2). -/
def anyKeywordContains (m : MatchResult) (sub : String) : Bool :=
  m.foundKeywords.any (fun k => substrContains (jsToLower k.data) sub.data)

/-- Modelled from the spec: the per-category severity table of §4.2
(brake: noise/failure then high else medium; engine: failure/overheating
then high else medium; tire: flat/wear then medium else low; electrical:
battery/failure then medium else low; transmission: slipping/failure then
high else medium). -/
def classifySeverity (cat : String) (m : MatchResult) : String :=
  if cat == "brake" then
    if anyKeywordContains m "noise" || anyKeywordContains m "failure" then "high" else "medium"
  else if cat == "engine" then
    if anyKeywordContains m "failure" || anyKeywordContains m "overheating" then "high"
    else "medium"
  else if cat == "tire" then
    if anyKeywordContains m "flat" || anyKeywordContains m "wear" then "medium" else "low"
  else if cat == "electrical" then
    if anyKeywordContains m "battery" || anyKeywordContains m "failure" then "medium" else "low"
  else if cat == "transmission" then
    if anyKeywordContains m "slipping" || anyKeywordContains m "failure" then "high"
    else "medium"
  else "low"

/-- Modelled from the spec: the fixed per-category message table of §4.2
(one canned mainProblem sentence and one recommendation per category,
plus an "other" default; the exact wording is representative, the spec
fixes only that the table is constant per category). -/
def categoryMessages (cat : String) : String × String :=
  if cat == "brake" then
    ("Brake system problem detected", "Have the brake system inspected immediately")
  else if cat == "tire" then
    ("Tire or wheel problem detected", "Check tire condition and alignment soon")
  else if cat == "engine" then
    ("Engine problem detected", "Have the engine diagnosed by a mechanic")
  else if cat == "electrical" then
    ("Electrical system problem detected", "Have the electrical system tested")
  else if cat == "transmission" then
    ("Transmission problem detected", "Have the transmission serviced promptly")
  else
    ("Vehicle issue detected", "Consult a qualified mechanic")

/-- Modelled from the spec: the rule-based severity/problem classifier of
§4.2 is not present under `src/` (every revision there delegates the
diagnostic summary to the external generative-AI call), so it is modelled
from the specification's words: no categories gives problemType "other",
severity "low", a generic mainProblem, a single generic specificIssues
placeholder and a generic fallback recommendation; otherwise problemType
is the first category in trigger order, messages come from the fixed
per-category table, severity from the escalation table, and
specificIssues renders up to the first 5 matched keywords. -/
def classify (m : MatchResult) : DiagnosticClassification :=
  match m.categories with
  | [] =>
    { mainProblem := "General vehicle maintenance check recommended"
      problemType := "other"
      severity := "low"
      specificIssues := ["No specific problems identified"]
      recommendation := "Schedule a routine vehicle inspection" }
  | cat :: _ =>
    { mainProblem := (categoryMessages cat).1
      problemType := cat
      severity := classifySeverity cat m
      specificIssues :=
        (m.foundKeywords.take 5).map (fun k => capitalizeFirst k ++ " issue detected")
      recommendation := (categoryMessages cat).2 }

/-- Substring containment of the lower-cased keyword makes the loop's
acceptance test succeed. -/
theorem keywordMatches_of_substr {lowerText : List Char} {keyword : String}
    (h : substrContains lowerText (jsToLower keyword.data) = true) :
    keywordMatches lowerText keyword = true := by
  unfold keywordMatches
  simp only [h, Bool.or_true]

/-- The categories of the matcher are the category accumulator of the loop. -/
theorem advancedKeywordSearch_categories (text : String) :
    (advancedKeywordSearch text).categories =
      (vehicleKeywords.foldl (scanStep (jsToLower text.data)) ([], [])).2 := rfl

/-- All `brake`-table keywords precede all `engine`-triggering keywords:
if the loop accumulator takes `brake` from "brake noise" within the first
nine table entries and `engine` only later, `brake` is listed before
`engine`. -/
theorem brake_before_engine (lowerText : List Char)
    (hb : substrContains lowerText ("brake noise".data) = true)
    (he : substrContains lowerText ("engine misfire".data) = true) :
    ["brake", "engine"].Sublist (vehicleKeywords.foldl (scanStep lowerText) ([], [])).2 := by
  have hsplit : vehicleKeywords = vehicleKeywords.take 9 ++ vehicleKeywords.drop 9 :=
    (List.take_append_drop 9 vehicleKeywords).symm
  rw [hsplit, List.foldl_append]
  have hbm : keywordMatches lowerText "brake noise" = true := by
    apply keywordMatches_of_substr
    have hl : jsToLower ("brake noise".data) = "brake noise".data := by decide
    rw [hl]; exact hb
  have hem : keywordMatches lowerText "engine misfire" = true := by
    apply keywordMatches_of_substr
    have hl : jsToLower ("engine misfire".data) = "engine misfire".data := by decide
    rw [hl]; exact he
  have hbrake : "brake" ∈ ((vehicleKeywords.take 9).foldl (scanStep lowerText) ([], [])).2 := by
    apply foldl_scanStep_cats_intro lowerText "brake" (vehicleKeywords.take 9) ([], [])
      "brake noise" (by decide) hbm
    intro cats
    exact brake_mem_addCats cats (by decide)
  have hnoeng : "engine" ∉ ((vehicleKeywords.take 9).foldl (scanStep lowerText) ([], [])).2 := by
    intro hmem
    rcases foldl_scanStep_engine_inv lowerText (vehicleKeywords.take 9) ([], []) hmem with
      h | ⟨k, hk, ht⟩
    · exact absurd h (List.not_mem_nil _)
    · have hall : ∀ k ∈ vehicleKeywords.take 9, trigEngine (jsToLower k.data) = false := by
        decide
      rw [hall k hk] at ht
      exact Bool.false_ne_true ht
  have hengine : "engine" ∈ ((vehicleKeywords.drop 9).foldl (scanStep lowerText)
      ((vehicleKeywords.take 9).foldl (scanStep lowerText) ([], []))).2 := by
    apply foldl_scanStep_cats_intro lowerText "engine" (vehicleKeywords.drop 9) _
      "engine misfire" (by decide) hem
    intro cats
    exact engine_mem_addCats cats (by decide)
  rcases foldl_scanStep_cats_append lowerText (vehicleKeywords.drop 9)
    ((vehicleKeywords.take 9).foldl (scanStep lowerText) ([], [])) with ⟨e, hee⟩
  rw [hee]
  rw [hee] at hengine
  have hengE : "engine" ∈ e := by
    rcases List.mem_append.mp hengine with h | h
    · exact absurd h hnoeng
    · exact h
  exact List.Sublist.append (List.singleton_sublist.mpr hbrake)
    (List.singleton_sublist.mpr hengE)

/-- C1, counterexample: the transcript "suspension noise" matches the
keyword "suspension noise", whose lower-cased text contains "suspension",
yet the returned categories are empty: no "suspension" category is ever
derived by `advancedKeywordSearch`. -/
theorem c1_counterexample :
    "suspension noise" ∈ (advancedKeywordSearch "suspension noise").foundKeywords ∧
    substrContains (jsToLower "suspension noise".data) ("suspension".data) = true ∧
    "suspension" ∉ (advancedKeywordSearch "suspension noise").categories ∧
    (advancedKeywordSearch "suspension noise").categories = [] :=
  ⟨by decide, by decide, by decide, by rfl⟩

/-- C1, amended: the matcher's category derivation covers only the five
categories brake, tire, engine, electrical and transmission; "suspension"
is never among the returned categories of any transcript, so keywords
containing "suspension"/"shock"/"strut" contribute no category. -/
theorem c1_five_categories (text : String) :
    "suspension" ∉ (advancedKeywordSearch text).categories ∧
    ∀ c ∈ (advancedKeywordSearch text).categories,
      c ∈ ["brake", "tire", "engine", "electrical", "transmission"] := by
  have hsub : ∀ c ∈ (advancedKeywordSearch text).categories,
      c ∈ ["brake", "tire", "engine", "electrical", "transmission"] := by
    intro c hc
    rw [advancedKeywordSearch_categories] at hc
    rcases foldl_scanStep_cats_subset (jsToLower text.data) vehicleKeywords ([], []) c hc with
      h | h
    · exact absurd h (List.not_mem_nil c)
    · exact h
  exact ⟨fun hmem => absurd (hsub _ hmem) (by decide), hsub⟩

/-- C1, witness for the amended statement at a concrete transcript. -/
theorem c1_witness :
    "suspension" ∉ (advancedKeywordSearch "flat tire").categories ∧
    "tire" ∈ ["brake", "tire", "engine", "electrical", "transmission"] :=
  ⟨(c1_five_categories "flat tire").1,
   (c1_five_categories "flat tire").2 "tire" (by decide)⟩

/-- C2, counterexample: a non-string transcription value (`null` or
`undefined`, modelled `none`) makes `advancedKeywordSearch` throw a
TypeError at `text.toLowerCase()` instead of returning the empty-match
result. -/
theorem c2_counterexample :
    advancedKeywordSearchJS none =
      Except.error "TypeError: text.toLowerCase is not a function" := rfl

/-- C2, amended: on every string input the matcher returns normally, and
the empty string yields exactly the empty-match result; a non-string input
is not normalized to the empty-match result but raises a TypeError. -/
theorem c2_string_total :
    (∀ s : String, advancedKeywordSearchJS (some s) = .ok (advancedKeywordSearch s)) ∧
    advancedKeywordSearch "" =
      { foundKeywords := [], categories := [], totalMatches := 0 } ∧
    advancedKeywordSearchJS none =
      Except.error "TypeError: text.toLowerCase is not a function" :=
  ⟨fun _ => rfl, rfl, rfl⟩

/-- C3, counterexample: in the `/process-recording` handler of
`src/unnamed/part_001`, an empty or whitespace-only transcript is not
treated as zero matches; the handler throws and the caller receives a
500 error response. -/
theorem c3_counterexample :
    processTranscriptStage (some "") = .httpError 500 noSpeechMsg ∧
    processTranscriptStage (some "   ") = .httpError 500 noSpeechMsg :=
  ⟨rfl, rfl⟩

/-- C3, amended: the handler rejects a missing, empty or whitespace-only
transcript with a 500 "No speech detected" error response before keyword
search; any transcript with non-whitespace content proceeds to
`advancedKeywordSearch` and completes, a zero-match result included. -/
theorem c3_nonempty_completes :
    processTranscriptStage none = .httpError 500 noSpeechMsg ∧
    ∀ s : String, jsTrim s.data ≠ [] →
      processTranscriptStage (some s) = .ok (advancedKeywordSearch s) := by
  refine ⟨rfl, fun s h => ?_⟩
  show (if (s.data.isEmpty || (jsTrim s.data).isEmpty) = true then
      HandlerOutcome.httpError 500 noSpeechMsg
    else HandlerOutcome.ok (advancedKeywordSearch s)) = .ok (advancedKeywordSearch s)
  have h2 : (jsTrim s.data).isEmpty = false := by
    cases he : (jsTrim s.data).isEmpty
    · rfl
    · exact absurd (List.isEmpty_iff.mp he) h
  have h1 : s.data.isEmpty = false := by
    cases hd : s.data.isEmpty
    · rfl
    · exfalso
      apply h
      rw [List.isEmpty_iff.mp hd]
      rfl
  rw [h1, h2]
  simp

/-- C3, witness: a transcript with content (and no keyword requirements)
passes the validation stage. -/
theorem c3_witness :
    jsTrim "engine stalling".data ≠ [] ∧
    processTranscriptStage (some "engine stalling") =
      .ok (advancedKeywordSearch "engine stalling") :=
  ⟨by decide, c3_nonempty_completes.2 "engine stalling" (by decide)⟩

/-- C4: the spec-modelled rule-based classifier maps any MatchResult with
no categories to problemType "other", severity "low", the generic
mainProblem, one generic specificIssues placeholder and the generic
fallback recommendation; in particular `classify (advancedKeywordSearch "")`
has problemType "other" and severity "low". -/
theorem c4_no_category_fallback :
    (∀ m : MatchResult, m.categories = [] →
      classify m =
        { mainProblem := "General vehicle maintenance check recommended"
          problemType := "other"
          severity := "low"
          specificIssues := ["No specific problems identified"]
          recommendation := "Schedule a routine vehicle inspection" }) ∧
    (classify (advancedKeywordSearch "")).problemType = "other" ∧
    (classify (advancedKeywordSearch "")).severity = "low" := by
  refine ⟨fun m h => ?_, rfl, rfl⟩
  unfold classify
  rw [h]

/-- C4, witness: a transcript with no keyword matches takes the fallback
branch of the classifier. -/
theorem c4_witness :
    (advancedKeywordSearch "hello there").categories = [] ∧
    classify (advancedKeywordSearch "hello there") =
      { mainProblem := "General vehicle maintenance check recommended"
        problemType := "other"
        severity := "low"
        specificIssues := ["No specific problems identified"]
        recommendation := "Schedule a routine vehicle inspection" } :=
  ⟨rfl, c4_no_category_fallback.1 _ rfl⟩

/-- C5: the dual acceptance test of the source (word-boundary regex match
OR substring containment) equals substring containment alone, and the
matcher with the dual test replaced by the single substring check returns
an identical result on every transcript. -/
theorem c5_substring_refinement :
    (∀ (lowerText : List Char) (keyword : String),
      keywordMatches lowerText keyword = keywordMatchesSub lowerText keyword) ∧
    ∀ text : String, advancedKeywordSearch text = substringOnlySearch text := by
  refine ⟨keywordMatches_eq_sub, fun text => ?_⟩
  unfold advancedKeywordSearch substringOnlySearch advancedKeywordSearchCore
    substringOnlySearchCore
  rw [scanStep_eq_sub]

/-- C6: `totalMatches` equals the length of the de-duplicated
`foundKeywords` list (the keyword table has no duplicates, so the
pre-de-duplication count the source uses coincides with it). -/
theorem c6_totalMatches_eq_length (text : String) :
    (advancedKeywordSearch text).totalMatches =
      (advancedKeywordSearch text).foundKeywords.length := by
  rw [advancedKeywordSearch_foundKeywords, advancedKeywordSearch_totalMatches]

/-- C7: `foundKeywords` is a sublist of the static keyword table (hence a
subset listed in table order with the table's original casing) and has no
duplicates. -/
theorem c7_foundKeywords_wellformed (text : String) :
    (advancedKeywordSearch text).foundKeywords.Sublist vehicleKeywords ∧
    (advancedKeywordSearch text).foundKeywords.Nodup ∧
    ∀ k ∈ (advancedKeywordSearch text).foundKeywords, k ∈ vehicleKeywords := by
  rw [advancedKeywordSearch_foundKeywords]
  exact ⟨List.filter_sublist _, vehicleKeywords_nodup.filter _,
    fun k hk => List.mem_of_mem_filter hk⟩

/-- C7, witness: concrete instance of the subset clause. -/
theorem c7_witness :
    (advancedKeywordSearch "brake fluid leak").foundKeywords.Sublist vehicleKeywords ∧
    "brake fluid" ∈ vehicleKeywords :=
  ⟨(c7_foundKeywords_wellformed "brake fluid leak").1,
   (c7_foundKeywords_wellformed "brake fluid leak").2.2 "brake fluid" (by decide)⟩

/-- C9, counterexample: the transcript "battery dead brake noise engine
misfire" contains both "brake noise" and "engine misfire" but yields the
categories ["brake", "engine", "electrical"], not ["brake", "engine"]:
further matched keywords contribute further categories. -/
theorem c9_counterexample :
    substrContains (jsToLower "battery dead brake noise engine misfire".data)
        ("brake noise".data) = true ∧
    substrContains (jsToLower "battery dead brake noise engine misfire".data)
        ("engine misfire".data) = true ∧
    (advancedKeywordSearch "battery dead brake noise engine misfire").categories =
      ["brake", "engine", "electrical"] ∧
    (advancedKeywordSearch "battery dead brake noise engine misfire").categories ≠
      ["brake", "engine"] :=
  ⟨by decide, by decide, by rfl, by decide⟩

/-- C9, amended: categories are accumulated without duplicates in
first-trigger order determined by the static-table order: a transcript
containing "wheel alignment" includes the category "tire"; a transcript
containing both "brake noise" and "engine misfire" includes "brake" and
"engine" with "brake" listed first; the transcript consisting of those two
phrases alone yields exactly ["brake", "engine"]. -/
theorem c9_category_order :
    (∀ text : String, (advancedKeywordSearch text).categories.Nodup) ∧
    (∀ text : String,
      substrContains (jsToLower text.data) ("wheel alignment".data) = true →
      "tire" ∈ (advancedKeywordSearch text).categories) ∧
    (∀ text : String,
      substrContains (jsToLower text.data) ("brake noise".data) = true →
      substrContains (jsToLower text.data) ("engine misfire".data) = true →
      ["brake", "engine"].Sublist (advancedKeywordSearch text).categories) ∧
    (advancedKeywordSearch "brake noise and engine misfire").categories =
      ["brake", "engine"] := by
  refine ⟨fun text => ?_, fun text h => ?_, fun text hb he => ?_, by rfl⟩
  · rw [advancedKeywordSearch_categories]
    exact foldl_scanStep_cats_nodup (jsToLower text.data) vehicleKeywords ([], [])
      List.nodup_nil
  · rw [advancedKeywordSearch_categories]
    apply foldl_scanStep_cats_intro (jsToLower text.data) "tire" vehicleKeywords ([], [])
      "wheel alignment" (by decide)
    · apply keywordMatches_of_substr
      have hl : jsToLower ("wheel alignment".data) = "wheel alignment".data := by decide
      rw [hl]; exact h
    · intro cats
      exact tire_mem_addCats cats (by decide)
  · rw [advancedKeywordSearch_categories]
    exact brake_before_engine (jsToLower text.data) hb he

/-- C9, witness: concrete instances of the two conditional clauses. -/
theorem c9_witness :
    "tire" ∈ (advancedKeywordSearch "the wheel alignment is off").categories ∧
    ["brake", "engine"].Sublist
      (advancedKeywordSearch "brake noise then engine misfire").categories :=
  ⟨c9_category_order.2.1 "the wheel alignment is off" (by decide),
   c9_category_order.2.2.1 "brake noise then engine misfire" (by decide) (by decide)⟩

/-- C10: matching is case-insensitive: the matcher result depends only on
the lower-cased transcript, so any two case-variants of a transcript give
identical results, and "BRAKE PEDAL issue" matches "brake pedal". -/
theorem c10_case_insensitive :
    (∀ t1 t2 : String, jsToLower t1.data = jsToLower t2.data →
      advancedKeywordSearch t1 = advancedKeywordSearch t2) ∧
    "brake pedal" ∈ (advancedKeywordSearch "BRAKE PEDAL issue").foundKeywords := by
  refine ⟨fun t1 t2 h => ?_, by decide⟩
  unfold advancedKeywordSearch
  rw [h]

/-- C10, witness: a concrete case-variant pair. -/
theorem c10_witness :
    jsToLower "BRAKE Pedal".data = jsToLower "brake pedal".data ∧
    advancedKeywordSearch "BRAKE Pedal" = advancedKeywordSearch "brake pedal" :=
  ⟨by decide, c10_case_insensitive.1 "BRAKE Pedal" "brake pedal" (by decide)⟩

/-- JSON values, as produced by `JSON.parse`. Number literals are kept as
their source lexeme (their numeric value is never inspected here). -/
inductive Json where
  | null : Json
  | bool (b : Bool) : Json
  | num (lit : List Char) : Json
  | str (s : List Char) : Json
  | arr (elems : List Json) : Json
  | obj (members : List (List Char × Json)) : Json
deriving Repr

/-- JSON insignificant whitespace (RFC 8259: space, tab, line feed,
carriage return). -/
def jsonWs (c : Char) : Bool :=
  c == ' ' || c == '\t' || c == '\n' || c == '\r'

/-- Skip JSON whitespace. -/
def skipWs (s : List Char) : List Char := s.dropWhile jsonWs

/-- Hexadecimal digit value for `\u` escapes. -/
def hexVal (c : Char) : Option Nat :=
  let n := c.toNat
  if 48 ≤ n ∧ n ≤ 57 then some (n - 48)
  else if 97 ≤ n ∧ n ≤ 102 then some (n - 87)
  else if 65 ≤ n ∧ n ≤ 70 then some (n - 55)
  else none

/-- Parse the body of a JSON string after the opening quote, handling the
standard escapes; returns the decoded characters and the remainder after
the closing quote. -/
def parseStringBody : Nat → List Char → Option (List Char × List Char)
  | 0, _ => none
  | _, [] => none
  | fuel + 1, c :: rest =>
    if c == '"' then some ([], rest)
    else if c == '\\' then
      match rest with
      | [] => none
      | e :: rest2 =>
        if e == '"' then
          (parseStringBody fuel rest2).map (fun p => ('"' :: p.1, p.2))
        else if e == '\\' then
          (parseStringBody fuel rest2).map (fun p => ('\\' :: p.1, p.2))
        else if e == '/' then
          (parseStringBody fuel rest2).map (fun p => ('/' :: p.1, p.2))
        else if e == 'b' then
          (parseStringBody fuel rest2).map (fun p => (Char.ofNat 8 :: p.1, p.2))
        else if e == 'f' then
          (parseStringBody fuel rest2).map (fun p => (Char.ofNat 12 :: p.1, p.2))
        else if e == 'n' then
          (parseStringBody fuel rest2).map (fun p => ('\n' :: p.1, p.2))
        else if e == 'r' then
          (parseStringBody fuel rest2).map (fun p => ('\r' :: p.1, p.2))
        else if e == 't' then
          (parseStringBody fuel rest2).map (fun p => ('\t' :: p.1, p.2))
        else if e == 'u' then
          match rest2 with
          | h1 :: h2 :: h3 :: h4 :: rest3 =>
            match hexVal h1, hexVal h2, hexVal h3, hexVal h4 with
            | some v1, some v2, some v3, some v4 =>
              (parseStringBody fuel rest3).map
                (fun p => (Char.ofNat (((v1 * 16 + v2) * 16 + v3) * 16 + v4) :: p.1, p.2))
            | _, _, _, _ => none
          | _ => none
        else none
    else if c.toNat < 32 then none
    else (parseStringBody fuel rest).map (fun p => (c :: p.1, p.2))

/-- Split a leading run of decimal digits. -/
def digitSpan (s : List Char) : List Char × List Char :=
  (s.takeWhile Char.isDigit, s.dropWhile Char.isDigit)

/-- Parse an optional JSON fraction part, returning its lexeme. -/
def parseFrac (s : List Char) : Option (List Char × List Char) :=
  match s with
  | '.' :: r =>
    let (ds, r2) := digitSpan r
    if ds.isEmpty then none else some ('.' :: ds, r2)
  | _ => some ([], s)

/-- Parse an optional JSON exponent part, returning its lexeme. -/
def parseExp (s : List Char) : Option (List Char × List Char) :=
  match s with
  | e :: r =>
    if e == 'e' || e == 'E' then
      let (sg, r1) :=
        match r with
        | c :: r2 => if c == '+' || c == '-' then ([c], r2) else (([] : List Char), r)
        | [] => ([], r)
      let (ds, r2) := digitSpan r1
      if ds.isEmpty then none else some (e :: (sg ++ ds), r2)
    else some ([], s)
  | [] => some ([], s)

/-- Parse a JSON number (RFC 8259 grammar, no leading zeros), returning
its lexeme. -/
def parseNumber (s : List Char) : Option (List Char × List Char) :=
  let (sign, s1) :=
    match s with
    | '-' :: r => ((['-'] : List Char), r)
    | _ => ([], s)
  let (ip, s2) := digitSpan s1
  if ip.isEmpty then none
  else if ip.length > 1 && ip.headD 'x' == '0' then none
  else
    match parseFrac s2 with
    | none => none
    | some (fp, s3) =>
      match parseExp s3 with
      | none => none
      | some (ep, s4) => some (sign ++ ip ++ fp ++ ep, s4)

mutual

/-- Parse one JSON value, returning it and the remaining input. Fuel
decreases at each nested value; `length input + 1` is always enough. -/
def jsonValue : Nat → List Char → Option (Json × List Char)
  | 0, _ => none
  | fuel + 1, s =>
    let s1 := skipWs s
    if ("null".data).isPrefixOf s1 then some (Json.null, s1.drop 4)
    else if ("true".data).isPrefixOf s1 then some (Json.bool true, s1.drop 4)
    else if ("false".data).isPrefixOf s1 then some (Json.bool false, s1.drop 5)
    else
      match s1 with
      | '"' :: rest =>
        (parseStringBody (rest.length + 1) rest).map (fun p => (Json.str p.1, p.2))
      | '[' :: rest =>
        (match skipWs rest with
         | ']' :: rest2 => some (Json.arr [], rest2)
         | _ => (jsonArrayTail fuel rest).map (fun p => (Json.arr p.1, p.2)))
      | '{' :: rest =>
        (match skipWs rest with
         | '}' :: rest2 => some (Json.obj [], rest2)
         | _ => (jsonObjectTail fuel rest).map (fun p => (Json.obj p.1, p.2)))
      | other => (parseNumber other).map (fun p => (Json.num p.1, p.2))

/-- Parse the non-empty element list of a JSON array, up to and including
the closing bracket. -/
def jsonArrayTail : Nat → List Char → Option (List Json × List Char)
  | 0, _ => none
  | fuel + 1, s =>
    match jsonValue fuel s with
    | none => none
    | some (v, rest) =>
      match skipWs rest with
      | [] => none
      | c :: rest2 =>
        if c == ',' then (jsonArrayTail fuel rest2).map (fun p => (v :: p.1, p.2))
        else if c == ']' then some ([v], rest2)
        else none

/-- Parse the non-empty member list of a JSON object, up to and including
the closing brace. -/
def jsonObjectTail : Nat → List Char → Option (List (List Char × Json) × List Char)
  | 0, _ => none
  | fuel + 1, s =>
    match skipWs s with
    | '"' :: rest =>
      match parseStringBody (rest.length + 1) rest with
      | none => none
      | some (key, rest2) =>
        match skipWs rest2 with
        | [] => none
        | c :: rest3 =>
          if !(c == ':') then none
          else
            match jsonValue fuel rest3 with
            | none => none
            | some (v, rest4) =>
              match skipWs rest4 with
              | [] => none
              | d :: rest5 =>
                if d == ',' then
                  (jsonObjectTail fuel rest5).map (fun p => ((key, v) :: p.1, p.2))
                else if d == '}' then some ([(key, v)], rest5)
                else none
    | _ => none

end

/-- Model of `JSON.parse`: one JSON value covering the entire input up to
trailing whitespace; anything else is a parse error (`none`). -/
def jsParse (s : List Char) : Option Json :=
  match jsonValue (s.length + 1) s with
  | some (v, rest) => if (skipWs rest).isEmpty then some v else none
  | none => none

example : jsParse ("\x7b\"a\":1\x7d".data) = some (Json.obj [("a".data, Json.num "1".data)]) := by
  rfl

example : jsParse ("\x7b\"a\":1\x7d x".data) = none := by rfl

/-- Worker for `stripPatWs`, structurally recursive on fuel; one unit of
fuel is spent per character position, so `length + 1` always suffices. -/
def stripPatWsGo : Nat → List Char → List Char → List Char
  | 0, _, _ => []
  | _, _, [] => []
  | fuel + 1, pat, c :: rest =>
    if pat ≠ [] ∧ pat.isPrefixOf (c :: rest) then
      stripPatWsGo fuel pat (((c :: rest).drop pat.length).dropWhile jsWs)
    else
      c :: stripPatWsGo fuel pat rest

/-- Model of the JavaScript global regex replace used by the source: each
occurrence of the literal `pat` followed by a greedy whitespace run is
removed, scanning left to right and resuming after the removed stretch.
The non-empty-pattern guard only avoids a degenerate loop; both patterns
used below are non-empty. -/
def stripPatWs (pat s : List Char) : List Char :=
  stripPatWsGo (s.length + 1) pat s

/-- The fence-stripping step of `parseGeminiResponse`:
`replace(/三backtick json\s*/g, "").replace(/三backtick\s*/g, "").trim()`
(the two regex literals spelled with three backticks). -/
def cleanFences (s : List Char) : List Char :=
  jsTrim (stripPatWs ("```".data) (stripPatWs ("```json".data) s))

/-- Model of `cleanText.match(/\x7b[\s\S]*\x7d/)`: a regex match starts at
the first `\x7b` of the text and the greedy `[\s\S]*` extends it to the
last `\x7d`, so the match is the span from the first opening brace to the
last closing brace, provided the latter comes after the former. -/
def greedyBraceSpan (s : List Char) : Option (List Char) :=
  match s.findIdx? (fun c => c == '{'), s.reverse.findIdx? (fun c => c == '}') with
  | some i, some k =>
    let j := s.length - 1 - k
    if i < j then some ((s.drop i).take (j + 1 - i)) else none
  | _, _ => none

/-- Take characters up to and including the brace closing `depth` open
braces, tracking nesting. -/
def takeBalanced : List Char → Nat → Option (List Char)
  | [], _ => none
  | c :: rest, depth =>
    if c == '}' then
      if depth == 1 then some [c]
      else (takeBalanced rest (depth - 1)).map (fun t => c :: t)
    else if c == '{' then
      (takeBalanced rest (depth + 1)).map (fun t => c :: t)
    else
      (takeBalanced rest depth).map (fun t => c :: t)

/-- The extraction step as the specification's words describe it: the
first top-level brace-balanced `\x7b...\x7d` group of the text (nesting
tracked by brace counting). -/
def firstTopLevelObject : List Char → Option (List Char)
  | [] => none
  | c :: rest =>
    if c == '{' then (takeBalanced rest 1).map (fun t => c :: t)
    else firstTopLevelObject rest

/-- Embedding of `parseGeminiResponse` from `src/backend/server.js`
(lines 94-111): strip code fences and trim, try `JSON.parse` directly,
otherwise `JSON.parse` the greedy first-brace-to-last-brace regex match;
a missing match or a second parse failure is rethrown as a
"Failed to parse AI response" error. -/
def parseGeminiResponse (responseText : String) : Except String Json :=
  let cleanText := cleanFences responseText.data
  match jsParse cleanText with
  | some v => .ok v
  | none =>
    match greedyBraceSpan cleanText with
    | some span =>
      match jsParse span with
      | some v => .ok v
      | none => .error "Failed to parse AI response: SyntaxError"
    | none => .error "Failed to parse AI response: No JSON object found in response"

/-- The parser as the claim's words describe it: identical pipeline, but
the fallback extracts the FIRST top-level brace-balanced object instead of
the greedy first-to-last-brace span. -/
def specParseGeminiResponse (responseText : String) : Except String Json :=
  let cleanText := cleanFences responseText.data
  match jsParse cleanText with
  | some v => .ok v
  | none =>
    match firstTopLevelObject cleanText with
    | some span =>
      match jsParse span with
      | some v => .ok v
      | none => .error "Failed to parse AI response: SyntaxError"
    | none => .error "Failed to parse AI response: No JSON object found in response"

example :
    parseGeminiResponse "```json\n\x7b\"a\": 1\x7d\n```" =
      .ok (Json.obj [("a".data, Json.num "1".data)]) := by rfl

/-- A concrete AI response separating the two fallback behaviors: two
top-level JSON objects with junk between them. -/
def geminiJunk : String := "\x7b\"a\":1\x7d x \x7b\"b\":2\x7d"

/-- C8, counterexample: when the fence-stripped text holds two top-level
JSON objects, direct decoding fails, and the code's greedy regex match
spans from the first opening brace to the LAST closing brace, covering
both objects, so the second decode also fails and a parse failure is
signalled, whereas decoding the first top-level object, as the claim
describes, succeeds. -/
theorem c8_counterexample :
    parseGeminiResponse geminiJunk = .error "Failed to parse AI response: SyntaxError" ∧
    specParseGeminiResponse geminiJunk = .ok (Json.obj [("a".data, Json.num "1".data)]) ∧
    greedyBraceSpan (cleanFences geminiJunk.data) = some geminiJunk.data ∧
    firstTopLevelObject (cleanFences geminiJunk.data) = some ("\x7b\"a\":1\x7d".data) :=
  ⟨rfl, rfl, rfl, rfl⟩

/-- C8, amended: the parser strips code-fence markers first and then
attempts direct JSON decoding; when the direct decode succeeds its value
is returned; if it fails, the parser decodes the span from the first
opening brace to the last closing brace, and every returned value comes
from one of those two decodes; when neither decode succeeds, or no such
span exists, a parse failure is signalled - no value is ever returned on
unparseable input. -/
theorem c8_parse_pipeline :
    (∀ (t : String) (v : Json), jsParse (cleanFences t.data) = some v →
      parseGeminiResponse t = .ok v) ∧
    (∀ (t : String) (v : Json), parseGeminiResponse t = .ok v →
      jsParse (cleanFences t.data) = some v ∨
      ∃ span, greedyBraceSpan (cleanFences t.data) = some span ∧ jsParse span = some v) ∧
    (∀ t : String, jsParse (cleanFences t.data) = none →
      (∀ span, greedyBraceSpan (cleanFences t.data) = some span → jsParse span = none) →
      ∃ msg, parseGeminiResponse t = .error msg) := by
  refine ⟨fun t v h => ?_, fun t v h => ?_, fun t h1 h2 => ?_⟩
  · simp only [parseGeminiResponse, h]
  · simp only [parseGeminiResponse] at h
    split at h
    · cases h
      exact Or.inl (by assumption)
    · split at h
      · split at h
        · cases h
          exact Or.inr ⟨_, by assumption, by assumption⟩
        · simp at h
      · simp at h
  · simp only [parseGeminiResponse, h1]
    cases hg : greedyBraceSpan (cleanFences t.data) with
    | some span => simp only [h2 span hg]; exact ⟨_, rfl⟩
    | none => exact ⟨_, rfl⟩

/-- C8, witness: a plain empty JSON object decodes directly. -/
theorem c8_witness :
    jsParse (cleanFences "\x7b\x7d".data) = some (Json.obj []) ∧
    parseGeminiResponse "\x7b\x7d" = .ok (Json.obj []) :=
  ⟨rfl, c8_parse_pipeline.1 "\x7b\x7d" (Json.obj []) rfl⟩
